import Mathlib

set_option autoImplicit false

namespace Spec2Proof

/-! Shallow embedding of the crawl-and-extract pipeline of the repository
(web scraper, content scoring, chunking, deduplication, configuration
validation and the ingestion loops).  JavaScript strings are modelled as
lists of characters; JS `length`, `slice`, `split`, `trim` and the two
regular expressions used by the chunker and the link extractor are given
as executable Lean functions below. -/

/-- Characters of a JavaScript string. -/
abbrev Str := List Char

/-- Coerce a Lean string literal to the character-list representation. -/
def strL (s : String) : Str := s.data

/-- Whitespace as matched by the JS regex class `\s` and by `String.trim`
(restricted to the ASCII whitespace that occurs in this code base). -/
def isWS (c : Char) : Bool :=
  c == ' ' || c == '\n' || c == '\t' || c == '\r' ||
  c == Char.ofNat 11 || c == Char.ofNat 12

/-- ASCII lower-casing, as applied by JS `toLowerCase` on the ASCII range. -/
def toLower (c : Char) : Char :=
  if 65 ≤ c.toNat ∧ c.toNat ≤ 90 then Char.ofNat (c.toNat + 32) else c

/-- JS `String.prototype.trim`. -/
def trimL (s : Str) : Str :=
  ((s.dropWhile isWS).reverse.dropWhile isWS).reverse

/-- JS `s.slice(-n)` for a non-negative count `n`.  For `n = 0` the JS call
is `slice(-0) = slice(0)` and returns the whole string; otherwise it
returns the last `min n (length s)` characters. -/
def jsSliceNegS (s : Str) (n : Nat) : Str :=
  if n = 0 then s else s.drop (s.length - n)

/-- JS `arr.slice(-n)` on arrays, with the same `-0` quirk. -/
def jsSliceNegL (l : List Str) (n : Nat) : List Str :=
  if n = 0 then l else l.drop (l.length - n)

/-- Sentence-terminating characters of the chunker regex `[.!?]`. -/
def isSentEnd (c : Char) : Bool :=
  c == '.' || c == '!' || c == '?'

/-- One global-match pass of the JS regex `/[^.!?]+[.!?]+/g`: repeatedly
skip characters that cannot start a match, take a maximal run of
non-terminators followed by a maximal run of terminators, and emit their
concatenation.  The fuel argument bounds the recursion; `length s + 1`
always suffices because every emitted match consumes at least one
character. -/
def splitSentencesGo : Nat → Str → List Str
  | 0, _ => []
  | fuel + 1, s =>
    let s1 := s.dropWhile isSentEnd
    let a := s1.takeWhile (fun c => !isSentEnd c)
    let b := (s1.drop a.length).takeWhile isSentEnd
    if a = [] then []
    else if b = [] then []
    else (a ++ b) :: splitSentencesGo fuel (s1.drop (a.length + b.length))

/-- All matches of `/[^.!?]+[.!?]+/g` in `s` (empty list when the JS
`match` call returns `null`). -/
def splitSentences (s : Str) : List Str :=
  splitSentencesGo (s.length + 1) s

/-- The sentence list actually used by the chunkers:
`text.match(/[^.!?]+[.!?]+/g) || [text]`. -/
def sentencesOf (s : Str) : List Str :=
  match splitSentences s with
  | [] => [s]
  | l => l

/-- Length of the longest entry of `sentencesOf s`. -/
def maxSentLen (s : Str) : Nat :=
  ((sentencesOf s).map List.length).foldr Nat.max 0

/-- Body of the hard character split of `chunkText`
(`for (let i = 0; i < sentence.length; i += chunkSize - chunkOverlap)`),
emitting `sentence.slice(i, i + chunkSize).trim()` when non-empty.  The
fuel argument makes the model total; `length s + 1` is enough fuel
whenever the step is positive (the valid-configuration regime
`chunkOverlap < chunkSize`); for step `0` the source loops forever. -/
def hardSplitGo (size step : Nat) (s : Str) : Nat → Nat → List Str
  | _, 0 => []
  | i, fuel + 1 =>
    if i < s.length then
      let c := trimL ((s.drop i).take size)
      (if c = [] then [] else [c]) ++ hardSplitGo size step s (i + step) fuel
    else []

/-- Hard character split of a single oversized sentence in
`EmbeddingService.chunkText`. -/
def hardSplit (size step : Nat) (s : Str) : List Str :=
  hardSplitGo size step s 0 (s.length + 1)

/-- Main accumulation loop of `EmbeddingService.chunkText`
(lib/services/embeddings.ts): walk the sentence list with a running
`currentChunk`; on overflow either flush the chunk and reseed it with the
`slice(-chunkOverlap)` tail, or hard-split a sentence that alone exceeds
`chunkSize`; finally flush the trimmed remainder when non-empty. -/
def chunkTextGo (size overlap : Nat) : List Str → Str → List Str
  | [], cur => if trimL cur = [] then [] else [trimL cur]
  | s :: rest, cur =>
    if size < (cur ++ s).length then
      if cur ≠ [] then
        trimL cur :: chunkTextGo size overlap rest (jsSliceNegS cur overlap ++ s)
      else
        hardSplit size (size - overlap) s ++ chunkTextGo size overlap rest []
    else
      chunkTextGo size overlap rest (cur ++ s)

/-- `EmbeddingService.chunkText` of lib/services/embeddings.ts, with the
configuration values `chunkSize` and `chunkOverlap` passed explicitly. -/
def chunkText (size overlap : Nat) (text : Str) : List Str :=
  if text.length ≤ size then [text]
  else chunkTextGo size overlap (sentencesOf text) []

/-- Index of the first occurrence of two consecutive newline characters. -/
def findNN : Str → Option Nat
  | '\n' :: '\n' :: _ => some 0
  | _ :: rest => (findNN rest).map (· + 1)
  | [] => none

/-- JS `text.split(/\n\n+/)`: split at every maximal run of two or more
newlines, keeping empty fields.  Fuel `length s + 1` always suffices
because every separator consumes at least two characters. -/
def splitParasGo : Nat → Str → List Str
  | 0, _ => []
  | fuel + 1, s =>
    match findNN s with
    | none => [s]
    | some i =>
      s.take i :: splitParasGo fuel ((s.drop i).dropWhile (· == '\n'))

/-- Paragraph split `text.split(/\n\n+/)` of `chunkTextSmartly`. -/
def splitParas (s : Str) : List Str :=
  splitParasGo (s.length + 1) s

/-- JS `s.split(" ")` (single-character separator, keeping empty fields;
`"".split(" ")` is `[""]`). -/
def splitOnSpace : Str → Str → List Str
  | acc, [] => [acc]
  | acc, c :: rest =>
    if c == ' ' then acc :: splitOnSpace [] rest
    else splitOnSpace (acc ++ [c]) rest

/-- JS `words.join(" ")`. -/
def joinSpace (l : List Str) : Str :=
  List.intercalate [' '] l

/-- Two-newline separator string used when gluing paragraphs. -/
def nn : Str := ['\n', '\n']

/-- Inner sentence loop of `chunkTextSmartly` for a paragraph that alone
exceeds `chunkSize`: accumulate sentences into `paragraphChunk`, flushing
the trimmed buffer on overflow and restarting from the sentence.  Returns
the flushed chunks and the final `paragraphChunk`. -/
def smartSentenceLoop (size : Nat) : List Str → Str → List Str × Str
  | [], pchunk => ([], pchunk)
  | s :: rest, pchunk =>
    if size < (pchunk ++ s).length then
      let r := smartSentenceLoop size rest s
      ((if pchunk ≠ [] then [trimL pchunk] else []) ++ r.1, r.2)
    else
      smartSentenceLoop size rest (pchunk ++ s)

/-- Paragraph loop of `EmbeddingService.chunkTextSmartly` (optimized
embeddings service): oversized paragraphs flush the buffer and are split
by sentences; otherwise a paragraph is appended to the buffer, and on
overflow the buffer is flushed and reseeded with the last
`ceil(chunkOverlap / 5)` space-separated words.  Returns the emitted
chunks and the final `currentChunk`. -/
def smartParaLoop (size overlap : Nat) : List Str → Str → List Str × Str
  | [], cur => ([], cur)
  | p :: rest, cur =>
    let t := trimL p
    if size < t.length then
      let pre := if cur ≠ [] then [trimL cur] else []
      let r0 := smartSentenceLoop size (sentencesOf t) []
      let r := smartParaLoop size overlap rest r0.2
      (pre ++ r0.1 ++ r.1, r.2)
    else
      if size < (cur ++ nn ++ t).length then
        let pre := if cur ≠ [] then [trimL cur] else []
        let ow := jsSliceNegL (splitOnSpace [] cur) ((overlap + 4) / 5)
        let r := smartParaLoop size overlap rest (joinSpace ow ++ nn ++ t)
        (pre ++ r.1, r.2)
      else
        smartParaLoop size overlap rest (cur ++ (if cur ≠ [] then nn else []) ++ t)

/-- `EmbeddingService.chunkTextSmartly` of the optimized embeddings
service, with the configuration values passed explicitly. -/
def chunkTextSmartly (size overlap : Nat) (text : Str) : List Str :=
  if text.length ≤ size then [text]
  else
    let r := smartParaLoop size overlap (splitParas text) []
    r.1 ++ (if trimL r.2 ≠ [] then [trimL r.2] else [])

/-! Quality scoring (lib/services/contentParser.ts). -/

/-- Heading entry of `ParsedContent`. -/
structure Heading where
  level : Nat
  text : Str

/-- Metadata block of `ParsedContent`; `uniqueWordRatio` is a JS float in
[0,1], modelled as a rational. -/
structure ContentMetadata where
  wordCount : Nat
  estimatedReadTime : Nat
  uniqueWordRatio : Rat
  hasBoilerplate : Bool

/-- The `ParsedContent` interface of lib/services/contentParser.ts
(the transient `language` field is irrelevant to scoring and omitted). -/
structure ParsedContent where
  title : Str
  mainContent : Str
  headings : List Heading
  paragraphs : List Str
  metadata : ContentMetadata

/-- Sentinel title used when no title source qualifies. -/
def untitledPage : Str := strL "Untitled Page"

/-- `ContentParser.calculateQualityScore`: sequential additive scoring
with a final clamp to [0, 100].  The JS truthiness test
`content.title && ...` is non-emptiness of the title string. -/
def calculateQualityScore (content : ParsedContent) : Int :=
  let score : Int := 0
  let score := if content.title ≠ [] ∧ content.title ≠ untitledPage then score + 20 else score
  let score := if 50 ≤ content.metadata.wordCount then score + 15 else score
  let score := if 200 ≤ content.metadata.wordCount then score + 15 else score
  let score := if 0 < content.headings.length then score + 10 else score
  let score := if 3 ≤ content.headings.length then score + 10 else score
  let score := if 3 ≤ content.paragraphs.length then score + 10 else score
  let score := if 5 ≤ content.paragraphs.length then score + 10 else score
  let score := if 200 ≤ content.metadata.wordCount ∧ content.metadata.wordCount ≤ 5000 then score + 5 else score
  let score := if 500 ≤ content.metadata.wordCount ∧ content.metadata.wordCount ≤ 3000 then score + 5 else score
  let score := if content.metadata.uniqueWordRatio < (3 : Rat) / 10 then score - 10 else score
  let score := if content.metadata.hasBoilerplate then score - 5 else score
  max 0 (min 100 score)

/-! Length bounds for the chunker. -/

lemma length_dropWhile_le (p : Char → Bool) (l : Str) :
    (l.dropWhile p).length ≤ l.length := by
  induction l with
  | nil => simp
  | cons c t ih => by_cases h : p c <;> simp [List.dropWhile, h] <;> omega

lemma length_trimL_le (s : Str) : (trimL s).length ≤ s.length := by
  unfold trimL
  calc ((s.dropWhile isWS).reverse.dropWhile isWS).reverse.length
      = ((s.dropWhile isWS).reverse.dropWhile isWS).length := by simp
    _ ≤ (s.dropWhile isWS).reverse.length := length_dropWhile_le _ _
    _ = (s.dropWhile isWS).length := by simp
    _ ≤ s.length := length_dropWhile_le _ _

lemma length_jsSliceNegS_le (s : Str) (n : Nat) (h : 1 ≤ n) :
    (jsSliceNegS s n).length ≤ n := by
  unfold jsSliceNegS
  rw [if_neg (by omega)]
  simp
  omega

lemma hardSplitGo_length_le (size step : Nat) (s : Str) :
    ∀ fuel i c, c ∈ hardSplitGo size step s i fuel → c.length ≤ size := by
  intro fuel
  induction fuel with
  | zero => intro i c hc; simp [hardSplitGo] at hc
  | succ n ih =>
    intro i c hc
    by_cases hi : i < s.length
    · simp only [hardSplitGo, if_pos hi, List.mem_append] at hc
      rcases hc with hc | hc
      · by_cases he : trimL ((s.drop i).take size) = []
        · simp [he] at hc
        · simp only [if_neg he, List.mem_singleton] at hc
          subst hc
          calc (trimL ((s.drop i).take size)).length
              ≤ ((s.drop i).take size).length := length_trimL_le _
            _ ≤ size := by simp
      · exact ih _ _ hc
    · simp [hardSplitGo, if_neg hi] at hc

lemma length_le_foldr_max (l : List Str) (s : Str) (hs : s ∈ l) :
    s.length ≤ (l.map List.length).foldr Nat.max 0 := by
  induction l with
  | nil => simp at hs
  | cons a t ih =>
    simp only [List.mem_cons] at hs
    rcases hs with rfl | hs
    · simp only [List.map_cons, List.foldr_cons]
      exact Nat.le_max_left _ _
    · simp only [List.map_cons, List.foldr_cons]
      exact le_trans (ih hs) (Nat.le_max_right _ _)

lemma length_le_maxSentLen (text : Str) (s : Str) (hs : s ∈ sentencesOf text) :
    s.length ≤ maxSentLen text :=
  length_le_foldr_max _ _ hs

lemma chunkTextGo_length_le (size overlap B : Nat) (h1 : 1 ≤ overlap)
    (hsize : size ≤ B) :
    ∀ sents cur, (∀ s ∈ sents, overlap + s.length ≤ B) → cur.length ≤ B →
      ∀ c ∈ chunkTextGo size overlap sents cur, c.length ≤ B := by
  intro sents
  induction sents with
  | nil =>
    intro cur _ hcur c hc
    simp only [chunkTextGo] at hc
    split at hc
    · simp at hc
    · simp only [List.mem_singleton] at hc
      subst hc
      exact le_trans (length_trimL_le _) hcur
  | cons s rest ih =>
    intro cur hsents hcur c hc
    have hrest : ∀ x ∈ rest, overlap + x.length ≤ B := fun x hx =>
      hsents x (List.mem_cons_of_mem _ hx)
    have hs : overlap + s.length ≤ B := hsents s (List.mem_cons_self _ _)
    simp only [chunkTextGo] at hc
    split at hc
    · split at hc
      · simp only [List.mem_cons] at hc
        rcases hc with rfl | hc
        · exact le_trans (length_trimL_le _) hcur
        · refine ih _ hrest ?_ _ hc
          calc (jsSliceNegS cur overlap ++ s).length
              = (jsSliceNegS cur overlap).length + s.length := by simp
            _ ≤ overlap + s.length :=
                Nat.add_le_add_right (length_jsSliceNegS_le _ _ h1) _
            _ ≤ B := hs
      · simp only [List.mem_append] at hc
        rcases hc with hc | hc
        · exact le_trans (hardSplitGo_length_le _ _ _ _ _ _ hc) hsize
        · exact ih _ hrest (by simp) _ hc
    · rename_i hle
      refine ih _ hrest ?_ _ hc
      omega

/-- Claim C1 (amended).  For `chunkText` with `1 ≤ chunkOverlap <
chunkSize`, every produced chunk has length at most
`max chunkSize (chunkOverlap + maxSentLen text)`: hard-split chunks never
exceed `chunkSize`, but a chunk closed right after overlap seeding can
exceed `chunkSize` by up to `chunkOverlap` even when every sentence fits
into `chunkSize`, and an oversized sentence that follows a non-empty
buffer is carried into a chunk without being hard-split.  The original
`≤ chunkSize` claim is refuted by the counterexample theorem. -/
theorem chunkText_chunk_length_bound (size overlap : Nat) (text : Str)
    (h1 : 1 ≤ overlap) (h2 : overlap < size) :
    ∀ c ∈ chunkText size overlap text,
      c.length ≤ max size (overlap + maxSentLen text) := by
  intro c hc
  unfold chunkText at hc
  split at hc
  · simp only [List.mem_singleton] at hc
    subst hc
    exact le_trans (by omega) (Nat.le_max_left _ _)
  · refine chunkTextGo_length_le size overlap _ h1 (Nat.le_max_left _ _)
      (sentencesOf text) [] ?_ (by simp) c hc
    intro s hs
    exact le_trans (Nat.add_le_add_left (length_le_maxSentLen text s hs) _)
      (Nat.le_max_right _ _)

/-- Witness for C1 at a concrete input: with `chunkSize = 10`,
`chunkOverlap = 5` and two 8-character sentences, the second emitted chunk
is the 13-character overlap-seeded chunk, within the proved bound. -/
theorem chunkText_chunk_length_bound_witness :
    (strL "aaaa.bbbbbbb.").length ≤ max 10 (5 + maxSentLen (strL "aaaaaaa.bbbbbbb.")) :=
  chunkText_chunk_length_bound 10 5 (strL "aaaaaaa.bbbbbbb.") (by decide) (by decide)
    (strL "aaaa.bbbbbbb.") (by decide)

/-- Counterexample for C1 as stated.  With the valid configuration
`chunkSize = 10`, `chunkOverlap = 5` and input "aaaaaaa.bbbbbbb." (two
sentences of 8 characters each, so the hard character split is never
reached), `chunkText` emits the 13-character chunk "aaaa.bbbbbbb.",
exceeding `chunkSize` at a sentence boundary rather than at a hard
character-split boundary. -/
theorem chunkText_exceeds_chunkSize_cex :
    (1 ≤ 5 ∧ 5 < 10) ∧
    sentencesOf (strL "aaaaaaa.bbbbbbb.") = [strL "aaaaaaa.", strL "bbbbbbb."] ∧
    chunkText 10 5 (strL "aaaaaaa.bbbbbbb.") = [strL "aaaaaaa.", strL "aaaa.bbbbbbb."] ∧
    10 < (strL "aaaa.bbbbbbb.").length := by
  decide

/-- Claim C2 (amended).  For `"A".repeat(50)` with `chunkSize = 20` and
`chunkOverlap = 5`, the sentence-based `chunkText` falls through to the
hard character split advancing by 15 characters per step and produces
4 = ceil(50/15) chunks of lengths 20, 20, 20 and 5, each at most 20.
The optimized `chunkTextSmartly` has no hard split and returns the whole
50-character text as one chunk (see the counterexample theorem). -/
theorem chunkText_hard_split_scenario :
    chunkText 20 5 (List.replicate 50 'A') =
      [List.replicate 20 'A', List.replicate 20 'A', List.replicate 20 'A',
        List.replicate 5 'A'] ∧
    (chunkText 20 5 (List.replicate 50 'A')).length = 4 ∧
    (50 + 14) / 15 = 4 ∧
    (chunkText 20 5 (List.replicate 50 'A')).all (fun c => decide (c.length ≤ 20)) = true := by
  decide

/-- Counterexample for C2 as stated.  `chunkTextSmartly` never hard-splits:
on `"A".repeat(50)` with `chunkSize = 20, chunkOverlap = 5` it returns a
single chunk of length 50 instead of 4 chunks of length at most 20. -/
theorem chunkTextSmartly_no_hard_split_cex :
    chunkTextSmartly 20 5 (List.replicate 50 'A') = [List.replicate 50 'A'] ∧
    (List.replicate 50 'A').length = 50 := by
  decide

/-- Claim C3.  `calculateQualityScore` is exactly the additive score of
the spec: +20 for a real title, +15 each at 50 and 200 words, +10 each
for any heading and for at least 3, +10 each for at least 3 and at least
5 paragraphs, +5 each for word counts in [200,5000] and [500,3000], −10
when the unique-word ratio is below 0.3, −5 for boilerplate, clamped to
[0, 100]. -/
theorem calculateQualityScore_additive (c : ParsedContent) :
    calculateQualityScore c =
      max 0 (min 100
        ((if c.title ≠ [] ∧ c.title ≠ untitledPage then (20 : Int) else 0) +
         (if 50 ≤ c.metadata.wordCount then (15 : Int) else 0) +
         (if 200 ≤ c.metadata.wordCount then (15 : Int) else 0) +
         (if 0 < c.headings.length then (10 : Int) else 0) +
         (if 3 ≤ c.headings.length then (10 : Int) else 0) +
         (if 3 ≤ c.paragraphs.length then (10 : Int) else 0) +
         (if 5 ≤ c.paragraphs.length then (10 : Int) else 0) +
         (if 200 ≤ c.metadata.wordCount ∧ c.metadata.wordCount ≤ 5000 then (5 : Int) else 0) +
         (if 500 ≤ c.metadata.wordCount ∧ c.metadata.wordCount ≤ 3000 then (5 : Int) else 0) -
         (if c.metadata.uniqueWordRatio < (3 : Rat) / 10 then (10 : Int) else 0) -
         (if c.metadata.hasBoilerplate then (5 : Int) else 0))) := by
  have hadd : ∀ (P : Prop) (inst : Decidable P) (a k : Int),
      (if P then a + k else a) = a + (if P then k else 0) := by
    intro P inst a k
    split <;> simp
  have hsub : ∀ (P : Prop) (inst : Decidable P) (a k : Int),
      (if P then a - k else a) = a - (if P then k else 0) := by
    intro P inst a k
    split <;> simp
  unfold calculateQualityScore
  simp only [hadd, hsub, zero_add]

/-! URL model.  The Node `URL` class is an external collaborator; it is
modelled for the http/https URLs this crawler works with: the scheme is
matched case-insensitively, the host (with optional port) runs up to the
first of `/ ? # \\`, must be non-empty, and is lower-cased, as WHATWG
parsing does.  Serialization (`href`) of an already-absolute URL is
modelled as the identity, abstracting WHATWG normalization. -/

/-- Characters that terminate the host(:port) component of an URL. -/
def isHostEnd (c : Char) : Bool :=
  c == '/' || c == '?' || c == '#' || c == '\\'

/-- Parsed http(s) URL: scheme flag and lower-cased host(:port). -/
structure UrlParts where
  secure : Bool
  hostport : Str
  deriving DecidableEq

/-- Tail of URL parsing after the scheme: require the `://` separator and
a non-empty host(:port) running to the first of `/ ? # \\`. -/
def hostFromSep (secure : Bool) (r2 : Str) : Option UrlParts :=
  if r2.take 3 = strL "://" then
    if (r2.drop 3).takeWhile (fun c => !isHostEnd c) = [] then none
    else some { secure := secure, hostport := (r2.drop 3).takeWhile (fun c => !isHostEnd c) }
  else none

/-- Parse an absolute http/https URL: model of `new URL(s)` restricted to
the two schemes the scraper accepts; `none` models a thrown TypeError.
The input is lower-cased up front, matching WHATWG treatment of scheme
and host; only the (lower-cased) host survives into the result —
`urlHref` below recovers the path portion from the original string
positionally, since lower-casing preserves length. -/
def parseHttpUrl (s : Str) : Option UrlParts :=
  if (s.map toLower).take 4 = strL "http" then
    if ((s.map toLower).drop 4).take 1 = strL "s" then
      hostFromSep true (((s.map toLower).drop 4).drop 1)
    else hostFromSep false ((s.map toLower).drop 4)
  else none

/-- JS `new URL(s).hostname`: the lower-cased host without the port. -/
def urlHostname (s : Str) : Option Str :=
  (parseHttpUrl s).map (fun u => u.hostport.takeWhile (fun c => c != ':'))

/-- Scheme string of a parsed URL. -/
def schemeStr (secure : Bool) : Str :=
  if secure then strL "https" else strL "http"

/-- Path-query-fragment portion of a serialized href: WHATWG always
emits at least `/` as the path of an http(s) URL, inserting it when the
input has none before the query or fragment. -/
def ensureSlash (rest : Str) : Str :=
  match rest with
  | [] => ['/']
  | c :: _ => if c = '?' ∨ c = '#' then '/' :: rest else rest

/-- Model of `new URL(u, base).href` for the absolute http(s) URLs the
link regex captures (for an absolute URL the base argument is ignored):
the scheme and host are lower-cased, the path/query/fragment is kept
verbatim from the input (recovered positionally after the scheme and
host, whose lengths lower-casing preserves), and the mandatory path
slash is ensured.  Percent-encoding, dot-segment removal, default-port
elision and backslash-to-slash conversion are finer WHATWG
normalizations left out of the model; `none` models the TypeError
thrown for an invalid URL (empty host). -/
def urlHref (s : Str) : Option Str :=
  match parseHttpUrl s with
  | none => none
  | some u =>
    some (schemeStr u.secure ++ strL "://" ++ u.hostport ++
      ensureSlash (s.drop ((if u.secure then 8 else 7) + u.hostport.length)))

/-- Constructor state of `WebScraper`: the normalized base URL
(`protocol//host`) and the base hostname. -/
structure ScraperCfg where
  baseUrl : Str
  baseHostname : Str
  deriving DecidableEq

/-- `WebScraper.normalizeUrl` plus the constructor: `none` models the
`Invalid URL provided` error. -/
def mkScraper (url : Str) : Option ScraperCfg :=
  (parseHttpUrl url).map (fun u =>
    { baseUrl := schemeStr u.secure ++ strL "://" ++ u.hostport
      baseHostname := u.hostport.takeWhile (fun c => c != ':') })

/-- `WebScraper.isValidUrl`: the candidate parses and its hostname equals
the base hostname exactly. -/
def isValidUrl (cfg : ScraperCfg) (url : Str) : Bool :=
  match urlHostname url with
  | some h => h == cfg.baseHostname
  | none => false

/-! Link extraction: the regex `/href=["'](https?:\/\/[^"']+)["']/gi`. -/

/-- Either quote character of the regex character classes. -/
def isQuote (c : Char) : Bool :=
  c == '"' || c == Char.ofNat 39

/-- Length of the case-insensitive scheme part `https?:\/\/` at the head
of `l`: `some 8` for https, `some 7` for http, `none` when absent. -/
def matchSchemeLen (l : Str) : Option Nat :=
  if (l.take 7).map toLower = strL "http://" then some 7
  else if (l.take 8).map toLower = strL "https://" then some 8
  else none

/-- Try to match `href=["'](https?:\/\/[^"']+)["']` at the head of `l`.
On success, return the captured group (a prefix of the post-quote text:
the scheme plus the maximal run of non-quote characters) and the
remainder after the closing quote. -/
def matchHrefAt (l : Str) : Option (Str × Str) :=
  match l with
  | c1 :: c2 :: c3 :: c4 :: c5 :: q :: rest =>
    if toLower c1 = 'h' ∧ toLower c2 = 'r' ∧ toLower c3 = 'e' ∧ toLower c4 = 'f' ∧
        c5 = '=' ∧ isQuote q = true then
      match matchSchemeLen rest with
      | some n =>
        let run := (rest.drop n).takeWhile (fun c => !isQuote c)
        if run = [] then none
        else
          match rest.drop (n + run.length) with
          | c :: after => if isQuote c then some (rest.take (n + run.length), after) else none
          | [] => none
      | none => none
    else none
  | _ => none

/-- All captures of the global regex over the document, in order: the
`while ((match = linkRegex.exec(html)) !== null)` loop.  Fuel
`length l + 1` always suffices since every step consumes a character. -/
def scanLinksGo : Nat → Str → List Str
  | 0, _ => []
  | fuel + 1, l =>
    match l with
    | [] => []
    | _ :: rest =>
      match matchHrefAt l with
      | some (cap, after) => cap :: scanLinksGo fuel after
      | none => scanLinksGo fuel rest

/-- All regex captures in the HTML document. -/
def scanLinks (html : Str) : List Str :=
  scanLinksGo (html.length + 1) html

/-- Body of the capture loop of `WebScraper.extractLinks`: resolve the
capture into the normalized `new URL(url, this.baseUrl).href` (parse
failure models the catch-and-skip), drop candidates whose hash-stripped
href equals the hash-stripped base URL, then keep same-host links not
yet visited and not yet seen.  The hash-strip comparison, the membership
tests and the pushed value all use the normalized href, as in the
source. -/
def extractLinksGo (cfg : ScraperCfg) (visited : List Str) :
    List Str → List Str → List Str → List Str
  | [], links, _ => links
  | url :: caps, links, seen =>
    match urlHref url with
    | none => extractLinksGo cfg visited caps links seen
    | some absoluteUrl =>
      if absoluteUrl.takeWhile (fun c => c != '#') =
          cfg.baseUrl.takeWhile (fun c => c != '#') then
        extractLinksGo cfg visited caps links seen
      else if isValidUrl cfg absoluteUrl = true ∧ absoluteUrl ∉ visited ∧ absoluteUrl ∉ seen then
        extractLinksGo cfg visited caps (links ++ [absoluteUrl]) (seen ++ [absoluteUrl])
      else
        extractLinksGo cfg visited caps links seen

/-- `WebScraper.extractLinks` (lib/services/scraper.ts). -/
def extractLinks (cfg : ScraperCfg) (visited : List Str) (html : Str) : List Str :=
  extractLinksGo cfg visited (scanLinks html) [] []

/-! The crawler (lib/services/scraper.ts).  The HTTP fetch and the
cheerio-backed `ContentParser.parse` are external collaborators, modelled
together as an oracle `site : Str → Option SiteResp` giving, per URL, the
response status, the HTML body and the parsed content (`none` models a
thrown axios error); quality is computed from the parsed content with the
embedded `calculateQualityScore`, and links with the embedded
`extractLinks`. -/

/-- Per-URL result of the fetch + parse collaborators. -/
structure SiteResp where
  status : Nat
  html : Str
  parsed : ParsedContent

/-- The `ScrapedPage` interface. -/
structure ScrapedPage where
  url : Str
  title : Str
  content : Str
  links : List Str
  qualityScore : Int

/-- `WebScraper.scrapePage`: refuse revisits and visits beyond the page
budget, mark the URL visited, fetch, validate the response (HTML of at
least 100 characters, status 200), then parse, score and extract links
(the visited set already containing the current URL, as in the source). -/
def scrapePage (site : Str → Option SiteResp) (cfg : ScraperCfg) (maxPages : Nat)
    (visited : List Str) (url : Str) : Option ScrapedPage × List Str :=
  if url ∈ visited ∨ maxPages ≤ visited.length then (none, visited)
  else
    let visited1 := visited ++ [url]
    match site url with
    | none => (none, visited1)
    | some r =>
      if r.html.length < 100 then (none, visited1)
      else if r.status ≠ 200 then (none, visited1)
      else
        (some { url := url
                title := r.parsed.title
                content := r.parsed.mainContent
                links := extractLinks cfg visited1 r.html
                qualityScore := calculateQualityScore r.parsed }, visited1)

/-- Enqueue the links of an accepted page: each link not already in
`inQueue` and not visited is appended to the queue and to `inQueue`. -/
def enqueueLinks (visited : List Str) : List Str → List Str → List Str → List Str × List Str
  | queue, inQueue, [] => (queue, inQueue)
  | queue, inQueue, link :: links =>
    if link ∉ inQueue ∧ link ∉ visited then
      enqueueLinks visited (queue ++ [link]) (inQueue ++ [link]) links
    else
      enqueueLinks visited queue inQueue links

/-- The `while (!queue.isEmpty() && pages.length < this.maxPages)` loop of
`WebScraper.scrapeWebsite`.  Termination of the source loop is witnessed
by this being a total function: the measure
`(maxPages − pages.length, queue.length)` decreases lexicographically at
every iteration, because links are enqueued only when a page is accepted
and acceptance consumes page budget. -/
def crawlLoop (site : Str → Option SiteResp) (cfg : ScraperCfg) (maxPages : Nat) (minQ : Int) :
    List ScrapedPage → List Str → List Str → List Str → List ScrapedPage × List Str
  | pages, [], _, visited => (pages, visited)
  | pages, url :: queueRest, inQueue, visited =>
    if h : pages.length < maxPages then
      match scrapePage site cfg maxPages visited url with
      | (some page, visited1) =>
        if minQ ≤ page.qualityScore then
          let q2 := enqueueLinks visited1 queueRest inQueue page.links
          crawlLoop site cfg maxPages minQ (pages ++ [page]) q2.1 q2.2 visited1
        else crawlLoop site cfg maxPages minQ pages queueRest inQueue visited1
      | (none, visited1) => crawlLoop site cfg maxPages minQ pages queueRest inQueue visited1
    else (pages, visited)
termination_by pages queue inQueue visited => (maxPages - pages.length, queue.length)
decreasing_by
  · apply Prod.Lex.left
    simp only [List.length_append, List.length_singleton]
    omega
  · apply Prod.Lex.right
    simp
  · apply Prod.Lex.right
    simp

/-- `WebScraper.scrapeWebsite` for an already-constructed scraper: start
from the normalized base URL with empty page list, the base queued and
in-queue, and nothing visited. -/
def scrapeWebsiteFrom (site : Str → Option SiteResp) (cfg : ScraperCfg)
    (maxPages : Nat) (minQ : Int) : List ScrapedPage × List Str :=
  crawlLoop site cfg maxPages minQ [] [cfg.baseUrl] [cfg.baseUrl] []

/-- Construction plus crawl: `new WebScraper(baseUrl, maxPages)` followed
by `scrapeWebsite()`; `none` models the constructor throwing on an
invalid base URL. -/
def scrapeWebsite (site : Str → Option SiteResp) (baseUrl : Str)
    (maxPages : Nat) (minQ : Int) : Option (List ScrapedPage × List Str) :=
  (mkScraper baseUrl).map (fun cfg => scrapeWebsiteFrom site cfg maxPages minQ)

/-! Crawler invariants. -/

lemma scrapePage_snd (site : Str → Option SiteResp) (cfg : ScraperCfg) (maxPages : Nat)
    (visited : List Str) (url : Str) :
    (scrapePage site cfg maxPages visited url).2 = visited ∨
    (url ∉ visited ∧ (scrapePage site cfg maxPages visited url).2 = visited ++ [url]) := by
  unfold scrapePage
  by_cases h : url ∈ visited ∨ maxPages ≤ visited.length
  · rw [if_pos h]
    exact Or.inl rfl
  · rw [if_neg h]
    push_neg at h
    refine Or.inr ⟨h.1, ?_⟩
    cases hsite : site url with
    | none => rfl
    | some r =>
      simp only []
      split_ifs <;> rfl

lemma scrapePage_snd_nodup (site : Str → Option SiteResp) (cfg : ScraperCfg) (maxPages : Nat)
    (visited : List Str) (url : Str) (h : visited.Nodup) :
    ((scrapePage site cfg maxPages visited url).2).Nodup := by
  rcases scrapePage_snd site cfg maxPages visited url with heq | ⟨hmem, heq⟩
  · rw [heq]
    exact h
  · rw [heq]
    simp [List.nodup_append, h, hmem]

lemma crawlLoop_bounded_nodup (site : Str → Option SiteResp) (cfg : ScraperCfg)
    (maxPages : Nat) (minQ : Int) :
    ∀ pages queue inQueue visited, pages.length ≤ maxPages → visited.Nodup →
      (crawlLoop site cfg maxPages minQ pages queue inQueue visited).1.length ≤ maxPages ∧
      (crawlLoop site cfg maxPages minQ pages queue inQueue visited).2.Nodup := by
  intro pages queue inQueue visited hlen hnd
  induction pages, queue, inQueue, visited using crawlLoop.induct site cfg maxPages minQ with
  | case1 pages inQueue visited =>
    rw [crawlLoop]
    exact ⟨hlen, hnd⟩
  | case2 pages url queueRest inQueue visited h page visited1 heq hq q2 ih =>
    rw [crawlLoop]
    simp only [dif_pos h, heq, if_pos hq]
    refine ih ?_ ?_
    · simp only [List.length_append, List.length_singleton]
      omega
    · have hv := scrapePage_snd_nodup site cfg maxPages visited url hnd
      rw [heq] at hv
      exact hv
  | case3 pages url queueRest inQueue visited h page visited1 heq hq ih =>
    rw [crawlLoop]
    simp only [dif_pos h, heq, if_neg hq]
    refine ih hlen ?_
    have hv := scrapePage_snd_nodup site cfg maxPages visited url hnd
    rw [heq] at hv
    exact hv
  | case4 pages url queueRest inQueue visited h visited1 heq ih =>
    rw [crawlLoop]
    simp only [dif_pos h, heq]
    refine ih hlen ?_
    have hv := scrapePage_snd_nodup site cfg maxPages visited url hnd
    rw [heq] at hv
    exact hv
  | case5 pages url queueRest inQueue visited h =>
    rw [crawlLoop]
    simp only [dif_neg h]
    exact ⟨hlen, hnd⟩

/-- Claim C4.  The crawl loop of `WebScraper.scrapeWebsite` terminates for
every site oracle (witnessed by `crawlLoop` being a total function: the
measure `(maxPages − pages.length, queue.length)` decreases
lexicographically each iteration), the accepted-page list has length at
most `maxPages`, and the final visited set contains every URL at most
once (it only ever grows by URLs not yet in it). -/
theorem scrapeWebsite_terminates_bounded (site : Str → Option SiteResp) (cfg : ScraperCfg)
    (maxPages : Nat) (minQ : Int) :
    (scrapeWebsiteFrom site cfg maxPages minQ).1.length ≤ maxPages ∧
    (scrapeWebsiteFrom site cfg maxPages minQ).2.Nodup := by
  unfold scrapeWebsiteFrom
  exact crawlLoop_bounded_nodup site cfg maxPages minQ [] [cfg.baseUrl] [cfg.baseUrl] []
    (by simp) (by simp)

/-! Domain scoping. -/

lemma toLower_toLower (c : Char) : toLower (toLower c) = toLower c := by
  unfold toLower
  by_cases h : 65 ≤ c.toNat ∧ c.toNat ≤ 90
  · rw [if_pos h]
    have hv : (c.toNat + 32).isValidChar := Or.inl (by omega)
    have ht : (Char.ofNat (c.toNat + 32)).toNat = c.toNat + 32 := by
      simp [Char.ofNat, hv]
      rfl
    rw [if_neg (by rw [ht]; omega)]
  · rw [if_neg h, if_neg h]

lemma map_toLower_fix {l : Str} (h : ∀ c ∈ l, toLower c = c) : l.map toLower = l :=
  (List.map_congr_left h).trans (List.map_id l)

lemma takeWhile_all {p : Char → Bool} : ∀ {l : Str}, (∀ c ∈ l, p c = true) → l.takeWhile p = l := by
  intro l h
  induction l with
  | nil => rfl
  | cons c t ih =>
    rw [List.takeWhile_cons, h c (List.mem_cons_self _ _)]
    simp [ih (fun x hx => h x (List.mem_cons_of_mem _ hx))]

lemma hostFromSep_props (b : Bool) (r2 : Str) (u : UrlParts)
    (h : hostFromSep b r2 = some u) :
    u.secure = b ∧ u.hostport ≠ [] ∧ u.hostport ⊆ r2 ∧
      ∀ c ∈ u.hostport, isHostEnd c = false := by
  unfold hostFromSep at h
  split_ifs at h with h1 h2
  · injection h with h3
    subst h3
    refine ⟨rfl, h2, ?_, ?_⟩
    · exact fun c hc => List.drop_subset 3 r2 ((List.takeWhile_sublist _).subset hc)
    · intro c hc
      have := List.mem_takeWhile_imp hc
      simpa using this

lemma parseHttpUrl_props (s : Str) (u : UrlParts) (h : parseHttpUrl s = some u) :
    u.hostport ≠ [] ∧ (∀ c ∈ u.hostport, toLower c = c) ∧
      ∀ c ∈ u.hostport, isHostEnd c = false := by
  unfold parseHttpUrl at h
  have hsub : u.hostport ⊆ s.map toLower := by
    split_ifs at h with h1 h2
    · have := (hostFromSep_props _ _ _ h).2.2.1
      intro c hc
      exact List.drop_subset 4 _ (List.drop_subset 1 _ (this hc))
    · have := (hostFromSep_props _ _ _ h).2.2.1
      intro c hc
      exact List.drop_subset 4 _ (this hc)
  have hlow : ∀ c ∈ u.hostport, toLower c = c := by
    intro c hc
    obtain ⟨c0, _, rfl⟩ := List.mem_map.1 (hsub hc)
    exact toLower_toLower c0
  split_ifs at h with h1 h2
  · exact ⟨(hostFromSep_props _ _ _ h).2.1, hlow, (hostFromSep_props _ _ _ h).2.2.2⟩
  · exact ⟨(hostFromSep_props _ _ _ h).2.1, hlow, (hostFromSep_props _ _ _ h).2.2.2⟩

lemma parseHttpUrl_reconstruct (b : Bool) (hp : Str) (hne : hp ≠ [])
    (hlow : hp.map toLower = hp) (hhe : ∀ c ∈ hp, isHostEnd c = false) :
    parseHttpUrl (schemeStr b ++ strL "://" ++ hp) = some { secure := b, hostport := hp } := by
  have htw : hp.takeWhile (fun c => !isHostEnd c) = hp :=
    takeWhile_all (fun c hc => by simp [hhe c hc])
  have hsep : ∀ b2, hostFromSep b2 (strL "://" ++ hp) = some { secure := b2, hostport := hp } := by
    intro b2
    unfold hostFromSep
    rw [show List.take 3 (strL "://" ++ hp) = strL "://" from rfl, if_pos rfl]
    rw [show List.drop 3 (strL "://" ++ hp) = hp from rfl, htw, if_neg hne]
  cases b with
  | false =>
    unfold parseHttpUrl
    have hmap : (schemeStr false ++ strL "://" ++ hp).map toLower =
        strL "http" ++ (strL "://" ++ hp) := by
      simp only [schemeStr, if_neg Bool.false_ne_true, List.map_append, hlow,
        List.append_assoc]
      rfl
    rw [hmap]
    rw [show List.take 4 (strL "http" ++ (strL "://" ++ hp)) = strL "http" from rfl,
      if_pos rfl]
    rw [show List.take 1 (List.drop 4 (strL "http" ++ (strL "://" ++ hp))) = strL ":" from rfl]
    rw [if_neg (by decide)]
    rw [show List.drop 4 (strL "http" ++ (strL "://" ++ hp)) = strL "://" ++ hp from rfl]
    exact hsep false
  | true =>
    unfold parseHttpUrl
    have hmap : (schemeStr true ++ strL "://" ++ hp).map toLower =
        strL "http" ++ (strL "s" ++ (strL "://" ++ hp)) := by
      simp only [schemeStr, if_pos rfl, List.map_append, hlow, List.append_assoc]
      rfl
    rw [hmap]
    rw [show List.take 4 (strL "http" ++ (strL "s" ++ (strL "://" ++ hp))) = strL "http" from rfl,
      if_pos rfl]
    rw [show List.take 1 (List.drop 4 (strL "http" ++ (strL "s" ++ (strL "://" ++ hp)))) =
      strL "s" from rfl, if_pos rfl]
    rw [show List.drop 1 (List.drop 4 (strL "http" ++ (strL "s" ++ (strL "://" ++ hp)))) =
      strL "://" ++ hp from rfl]
    exact hsep true

lemma mkScraper_hostname (url : Str) (cfg : ScraperCfg) (h : mkScraper url = some cfg) :
    urlHostname cfg.baseUrl = some cfg.baseHostname := by
  unfold mkScraper at h
  cases hu : parseHttpUrl url with
  | none => rw [hu] at h; exact absurd h (by simp)
  | some u =>
    rw [hu] at h
    simp only [Option.map_some'] at h
    injection h with h2
    subst h2
    obtain ⟨hne, hlowp, hhe⟩ := parseHttpUrl_props url u hu
    show urlHostname (schemeStr u.secure ++ strL "://" ++ u.hostport) =
      some (u.hostport.takeWhile (fun c => c != ':'))
    unfold urlHostname
    rw [parseHttpUrl_reconstruct u.secure u.hostport hne (map_toLower_fix hlowp) hhe]
    rfl

lemma isValidUrl_hostname (cfg : ScraperCfg) (u : Str) (h : isValidUrl cfg u = true) :
    urlHostname u = some cfg.baseHostname := by
  unfold isValidUrl at h
  cases hu : urlHostname u with
  | none => rw [hu] at h; exact absurd h (by simp)
  | some hn =>
    rw [hu] at h
    exact congrArg some (eq_of_beq h)

lemma extractLinksGo_pushed (cfg : ScraperCfg) (visited : List Str) (P : Str → Prop) :
    ∀ caps links seen,
      (∀ cap ∈ caps, ∀ href, urlHref cap = some href →
        href.takeWhile (fun c => c != '#') ≠ cfg.baseUrl.takeWhile (fun c => c != '#') →
        isValidUrl cfg href = true → P href) →
      (∀ x ∈ links, P x) →
      ∀ x ∈ extractLinksGo cfg visited caps links seen, P x := by
  intro caps
  induction caps with
  | nil =>
    intro links seen _ hl x hx
    rw [extractLinksGo] at hx
    exact hl x hx
  | cons url caps ih =>
    intro links seen hcap hl x hx
    have hcap2 : ∀ cap ∈ caps, ∀ href, urlHref cap = some href →
        href.takeWhile (fun c => c != '#') ≠ cfg.baseUrl.takeWhile (fun c => c != '#') →
        isValidUrl cfg href = true → P href :=
      fun cap hc => hcap cap (List.mem_cons_of_mem _ hc)
    rw [extractLinksGo] at hx
    split at hx
    · exact ih _ _ hcap2 hl x hx
    · rename_i absoluteUrl hu
      split_ifs at hx with h1 h2
      · exact ih _ _ hcap2 hl x hx
      · refine ih _ _ hcap2 ?_ x hx
        intro y hy
        rcases List.mem_append.1 hy with hy | hy
        · exact hl y hy
        · rw [List.mem_singleton] at hy
          subst hy
          exact hcap url (List.mem_cons_self _ _) y hu h1 h2.1
      · exact ih _ _ hcap2 hl x hx

lemma extractLinksGo_nodup (cfg : ScraperCfg) (visited : List Str) :
    ∀ caps links seen, links.Nodup → (∀ x ∈ links, x ∈ seen) →
      (extractLinksGo cfg visited caps links seen).Nodup := by
  intro caps
  induction caps with
  | nil =>
    intro links seen hnd _
    rw [extractLinksGo]
    exact hnd
  | cons url caps ih =>
    intro links seen hnd hsub
    rw [extractLinksGo]
    split
    · exact ih _ _ hnd hsub
    · rename_i absoluteUrl hu
      split_ifs with h1 h2
      · exact ih _ _ hnd hsub
      · refine ih _ _ ?_ ?_
        · have hnotin : absoluteUrl ∉ links := fun hmem => h2.2.2 (hsub _ hmem)
          simp [List.nodup_append, hnd, hnotin]
        · intro x hx
          rcases List.mem_append.1 hx with hx | hx
          · exact List.mem_append.2 (Or.inl (hsub x hx))
          · exact List.mem_append.2 (Or.inr hx)
      · exact ih _ _ hnd hsub

lemma extractLinks_valid (cfg : ScraperCfg) (visited : List Str) (html : Str) :
    ∀ l ∈ extractLinks cfg visited html, isValidUrl cfg l = true := by
  unfold extractLinks
  exact extractLinksGo_pushed cfg visited _ (scanLinks html) [] []
    (fun _ _ _ _ _ hv => hv) (by simp)

lemma enqueueLinks_mem (visited : List Str) :
    ∀ links queue inQueue x, x ∈ (enqueueLinks visited queue inQueue links).1 →
      x ∈ queue ∨ x ∈ links := by
  intro links
  induction links with
  | nil =>
    intro q iq x hx
    rw [enqueueLinks] at hx
    exact Or.inl hx
  | cons l ls ih =>
    intro q iq x hx
    rw [enqueueLinks] at hx
    split_ifs at hx with hc
    · rcases ih _ _ x hx with h | h
      · rcases List.mem_append.1 h with h | h
        · exact Or.inl h
        · rw [List.mem_singleton] at h
          exact Or.inr (h ▸ List.mem_cons_self _ _)
      · exact Or.inr (List.mem_cons_of_mem _ h)
    · rcases ih _ _ x hx with h | h
      · exact Or.inl h
      · exact Or.inr (List.mem_cons_of_mem _ h)

lemma scrapePage_some (site : Str → Option SiteResp) (cfg : ScraperCfg) (maxPages : Nat)
    (visited : List Str) (url : Str) (page : ScrapedPage) (v1 : List Str)
    (h : scrapePage site cfg maxPages visited url = (some page, v1)) :
    page.url = url ∧ ∀ l ∈ page.links, isValidUrl cfg l = true := by
  unfold scrapePage at h
  by_cases h0 : url ∈ visited ∨ maxPages ≤ visited.length
  · rw [if_pos h0] at h
    exact absurd h (by simp)
  · rw [if_neg h0] at h
    cases hsite : site url with
    | none =>
      rw [hsite] at h
      exact absurd h (by simp)
    | some r =>
      rw [hsite] at h
      simp only [] at h
      split_ifs at h with h1 h2
      · exact absurd h (by simp)
      · exact absurd h (by simp)
      · rw [Prod.mk.injEq, Option.some.injEq] at h
        obtain ⟨hpage, _⟩ := h
        subst hpage
        exact ⟨rfl, extractLinks_valid cfg _ r.html⟩

lemma crawlLoop_domain (site : Str → Option SiteResp) (cfg : ScraperCfg)
    (maxPages : Nat) (minQ : Int) :
    ∀ pages queue inQueue visited,
      (∀ q ∈ queue, urlHostname q = some cfg.baseHostname) →
      (∀ p ∈ pages, urlHostname p.url = some cfg.baseHostname ∧
        ∀ l ∈ p.links, urlHostname l = some cfg.baseHostname) →
      ∀ p ∈ (crawlLoop site cfg maxPages minQ pages queue inQueue visited).1,
        urlHostname p.url = some cfg.baseHostname ∧
        ∀ l ∈ p.links, urlHostname l = some cfg.baseHostname := by
  intro pages queue inQueue visited hq hp
  induction pages, queue, inQueue, visited using crawlLoop.induct site cfg maxPages minQ with
  | case1 pages inQueue visited =>
    rw [crawlLoop]
    exact hp
  | case2 pages url queueRest inQueue visited h page visited1 heq hquality q2 ih =>
    rw [crawlLoop]
    simp only [dif_pos h, heq, if_pos hquality]
    obtain ⟨hurl, hlinks⟩ := scrapePage_some site cfg maxPages visited url page visited1 heq
    have hpageP : urlHostname page.url = some cfg.baseHostname ∧
        ∀ l ∈ page.links, urlHostname l = some cfg.baseHostname := by
      constructor
      · rw [hurl]
        exact hq url (List.mem_cons_self _ _)
      · exact fun l hl => isValidUrl_hostname cfg l (hlinks l hl)
    refine ih ?_ ?_
    · intro q hqmem
      rcases enqueueLinks_mem visited1 page.links queueRest inQueue q hqmem with hm | hm
      · exact hq q (List.mem_cons_of_mem _ hm)
      · exact hpageP.2 q hm
    · intro p hpmem
      rcases List.mem_append.1 hpmem with hm | hm
      · exact hp p hm
      · rw [List.mem_singleton] at hm
        exact hm ▸ hpageP
  | case3 pages url queueRest inQueue visited h page visited1 heq hquality ih =>
    rw [crawlLoop]
    simp only [dif_pos h, heq, if_neg hquality]
    exact ih (fun q hm => hq q (List.mem_cons_of_mem _ hm)) hp
  | case4 pages url queueRest inQueue visited h visited1 heq ih =>
    rw [crawlLoop]
    simp only [dif_pos h, heq]
    exact ih (fun q hm => hq q (List.mem_cons_of_mem _ hm)) hp
  | case5 pages url queueRest inQueue visited h =>
    rw [crawlLoop]
    simp only [dif_neg h]
    exact hp

/-- Claim C5.  For every crawl started from a valid base URL, every
accepted page's URL has hostname exactly equal to the normalized base
hostname, and so does every link of every accepted page — the frontier is
only ever fed from the base URL and these link lists, all of which pass
`isValidUrl`'s exact hostname equality (no subdomains, no foreign
hosts). -/
theorem scrapeWebsite_domain_scoped (site : Str → Option SiteResp) (baseUrl : Str)
    (maxPages : Nat) (minQ : Int) (cfg : ScraperCfg)
    (hcfg : mkScraper baseUrl = some cfg) :
    ((scrapeWebsiteFrom site cfg maxPages minQ).1).all
      (fun p => (urlHostname p.url == some cfg.baseHostname) &&
        p.links.all (fun l => urlHostname l == some cfg.baseHostname)) = true := by
  rw [List.all_eq_true]
  intro p hpmem
  have hbase : urlHostname cfg.baseUrl = some cfg.baseHostname :=
    mkScraper_hostname baseUrl cfg hcfg
  have := crawlLoop_domain site cfg maxPages minQ [] [cfg.baseUrl] [cfg.baseUrl] []
    (by intro q hqmem; rw [List.mem_singleton] at hqmem; exact hqmem ▸ hbase)
    (by simp) p hpmem
  rw [Bool.and_eq_true, beq_iff_eq, List.all_eq_true]
  exact ⟨this.1, fun l hl => by rw [beq_iff_eq]; exact this.2 l hl⟩

/-- Witness for C5 at a concrete crawl: base URL "https://example.com"
with a site oracle that always fails (the bound is about the shape of the
result, which is then empty). -/
theorem scrapeWebsite_domain_scoped_witness :
    ((scrapeWebsiteFrom (fun _ => none)
        { baseUrl := strL "https://example.com", baseHostname := strL "example.com" } 5 20).1).all
      (fun p => (urlHostname p.url ==
          some ({ baseUrl := strL "https://example.com",
                  baseHostname := strL "example.com" : ScraperCfg }).baseHostname) &&
        p.links.all (fun l => urlHostname l ==
          some ({ baseUrl := strL "https://example.com",
                  baseHostname := strL "example.com" : ScraperCfg }).baseHostname)) = true :=
  scrapeWebsite_domain_scoped (fun _ => none) (strL "https://example.com") 5 20
    { baseUrl := strL "https://example.com", baseHostname := strL "example.com" } (by decide)

/-! Characterization of the link extractor (claim C9). -/

lemma matchHrefAt_decomp (l : Str) (cap after : Str)
    (h : matchHrefAt l = some (cap, after)) :
    ∃ c1 c2 c3 c4 c5 q rest k,
      l = c1 :: c2 :: c3 :: c4 :: c5 :: q :: rest ∧
      cap = rest.take k ∧ after = rest.drop (k + 1) := by
  unfold matchHrefAt at h
  split at h
  · rename_i c1 c2 c3 c4 c5 q rest
    split_ifs at h with h1
    · cases hms : matchSchemeLen rest with
      | none =>
        rw [hms] at h
        exact absurd h (by simp)
      | some n =>
        rw [hms] at h
        simp only [] at h
        split_ifs at h with h2
        · cases hdrop : rest.drop (n + ((rest.drop n).takeWhile (fun c => !isQuote c)).length) with
          | nil =>
            rw [hdrop] at h
            exact absurd h (by simp)
          | cons c r2 =>
            rw [hdrop] at h
            simp only [] at h
            split_ifs at h with h3
            · rw [Option.some.injEq, Prod.mk.injEq] at h
              refine ⟨c1, c2, c3, c4, c5, q, rest,
                n + ((rest.drop n).takeWhile (fun c => !isQuote c)).length, rfl, h.1.symm, ?_⟩
              have hd2 : rest.drop
                  (n + ((rest.drop n).takeWhile (fun c => !isQuote c)).length + 1) = r2 := by
                rw [← List.drop_drop 1, hdrop]
                rfl
              rw [hd2, ← h.2]
  · exact absurd h (by simp)

lemma scanLinksGo_infix :
    ∀ fuel l cap, cap ∈ scanLinksGo fuel l → ∃ pre post, l = pre ++ cap ++ post := by
  intro fuel
  induction fuel with
  | zero =>
    intro l cap hc
    simp [scanLinksGo] at hc
  | succ n ih =>
    intro l cap hc
    rw [scanLinksGo.eq_def] at hc
    simp only [] at hc
    cases l with
    | nil => simp at hc
    | cons c rest =>
      cases hm : matchHrefAt (c :: rest) with
      | some pr =>
        rw [hm] at hc
        obtain ⟨d1, d2, d3, d4, d5, q, r, k, hl, hcap, hafter⟩ :=
          matchHrefAt_decomp (c :: rest) pr.1 pr.2 (by rw [hm])
        rcases List.mem_cons.1 hc with rfl | hc
        · refine ⟨[d1, d2, d3, d4, d5, q], r.drop k, ?_⟩
          rw [hl, hcap]
          simp [List.take_append_drop]
        · obtain ⟨pre, post, hsp⟩ := ih pr.2 cap hc
          rw [hafter] at hsp
          simp only [List.append_assoc] at hsp
          refine ⟨[d1, d2, d3, d4, d5, q] ++ r.take (k + 1) ++ pre, post, ?_⟩
          rw [hl]
          simp only [List.append_assoc, List.cons_append, List.nil_append]
          rw [← hsp, List.take_append_drop]
      | none =>
        rw [hm] at hc
        obtain ⟨pre, post, hsp⟩ := ih rest cap hc
        exact ⟨c :: pre, post, by rw [hsp]; rfl⟩

lemma takeWhile_idem (p : Char → Bool) (l : Str) :
    (l.takeWhile p).takeWhile p = l.takeWhile p :=
  takeWhile_all (fun c hc => List.mem_takeWhile_imp hc)

lemma isValidUrl_parses (cfg : ScraperCfg) (u : Str) (h : isValidUrl cfg u = true) :
    (parseHttpUrl u).isSome = true := by
  cases hp : parseHttpUrl u with
  | none =>
    unfold isValidUrl urlHostname at h
    rw [hp] at h
    exact absurd h (by simp)
  | some u2 => simp [hp]

/-- Character-list version of prefix comparison: does the second string
start with the first? -/
def startsWithL : Str → Str → Bool
  | [], _ => true
  | _ :: _, [] => false
  | a :: as, b :: bs => a == b && startsWithL as bs

/-- Whether the second string occurs as a contiguous substring of the
first. -/
def occursWithin : Str → Str → Bool
  | [], needle => startsWithL needle []
  | c :: rest, needle => startsWithL needle (c :: rest) || occursWithin rest needle

/-- Claim C9 (amended).  Every link returned by `extractLinks` is the
WHATWG-normalized href (`new URL(capture, baseUrl).href`: scheme and
host lower-cased, mandatory path slash) of a regex capture — an
absolute `http(s)://` URL occurring verbatim in the HTML as an
`href="..."`/`href='...'` attribute value, so a relative href is never
discovered; every returned link is itself an absolute http(s) URL; the
returned list has no duplicates; and the fragment-stripped base URL
itself is never returned.  Every capture is a contiguous substring of
the HTML, but the returned strings themselves need not occur in the
document: normalization refutes that stronger reading (see the
counterexample). -/
theorem extractLinks_normalized_captures (cfg : ScraperCfg) (visited : List Str)
    (html : Str) :
    (∀ l ∈ extractLinks cfg visited html,
        (∃ cap ∈ scanLinks html, urlHref cap = some l) ∧
        (parseHttpUrl l).isSome = true ∧
        l.takeWhile (fun c => c != '#') ≠ cfg.baseUrl.takeWhile (fun c => c != '#')) ∧
    (extractLinks cfg visited html).Nodup ∧
    cfg.baseUrl.takeWhile (fun c => c != '#') ∉ extractLinks cfg visited html ∧
    (∀ cap ∈ scanLinks html, ∃ pre post, html = pre ++ cap ++ post) := by
  have hpush := extractLinksGo_pushed cfg visited
    (fun href => (∃ cap ∈ scanLinks html, urlHref cap = some href) ∧
      (parseHttpUrl href).isSome = true ∧
      href.takeWhile (fun c => c != '#') ≠ cfg.baseUrl.takeWhile (fun c => c != '#'))
    (scanLinks html) [] []
    (fun cap hc href heq hne hv => ⟨⟨cap, hc, heq⟩, isValidUrl_parses cfg href hv, hne⟩)
    (by simp)
  refine ⟨?_, ?_, ?_, ?_⟩
  · exact fun l hl => hpush l hl
  · exact extractLinksGo_nodup cfg visited (scanLinks html) [] [] (by simp) (by simp)
  · intro hmem
    have := (hpush _ hmem).2.2
    exact this (takeWhile_idem _ _)
  · exact fun cap hc => scanLinksGo_infix (html.length + 1) html cap hc

/-- Counterexample for C9 as stated.  `extractLinks` pushes
`new URL(capture, this.baseUrl).href`, not the capture itself: for the
document `<a href="https://EXAMPLE.com/a">x</a>` crawled from base
`https://example.com`, the single returned link is the normalized
`https://example.com/a`, a string that occurs nowhere in the HTML (the
capture list holds the verbatim uppercase-host form), refuting
"returns only URLs that occur in the HTML as absolute href attribute
values". -/
theorem extractLinks_normalizes_captures_cex :
    extractLinks { baseUrl := strL "https://example.com", baseHostname := strL "example.com" }
        [] (strL "<a href=\"https://EXAMPLE.com/a\">x</a>") =
      [strL "https://example.com/a"] ∧
    scanLinks (strL "<a href=\"https://EXAMPLE.com/a\">x</a>") =
      [strL "https://EXAMPLE.com/a"] ∧
    occursWithin (strL "<a href=\"https://EXAMPLE.com/a\">x</a>")
      (strL "https://example.com/a") = false := by
  decide

/-! Deduplication service (lib/services/browserScraper.ts). -/

/-- Fuel-based body of `replace(/\s+/g, " ")`: every maximal whitespace
run becomes a single space.  Fuel `length s + 1` always suffices. -/
def collapseWSGo : Nat → Str → Str
  | 0, _ => []
  | _, [] => []
  | fuel + 1, c :: rest =>
    if isWS c then ' ' :: collapseWSGo fuel (rest.dropWhile isWS)
    else c :: collapseWSGo fuel rest

/-- JS `s.replace(/\s+/g, " ")`. -/
def collapseWS (s : Str) : Str :=
  collapseWSGo (s.length + 1) s

/-- `DeduplicationService.createHash`: SHA-256 of
`content.toLowerCase().replace(/\s+/g, " ").trim()`.  The digest is
modelled as the normalized text itself: the model hash is a function of
exactly the same input, and the service only ever compares hashes for
equality, which normalized-text equality preserves. -/
def createHash (content : Str) : Str :=
  trimL (collapseWS (content.map toLower))

/-- The `PageFingerprint` interface. -/
structure PageFingerprint where
  url : Str
  contentHash : Str
  titleHash : Str
  length : Nat
  deriving DecidableEq

/-- `DeduplicationService.createFingerprint`. -/
def createFingerprint (url title content : Str) : PageFingerprint :=
  { url := url
    contentHash := createHash content
    titleHash := createHash title
    length := content.length }

/-- `DeduplicationService.calculateSimilarity`: 1 for identical hashes;
otherwise 0 (the length-ratio pre-check is dead for the output — both
its branches return 0; in JS `0/0` is `NaN`, whose `< 0.8` comparison is
false, while here `0/0 = 0 < 4/5`; either way the result is 0). -/
def calculateSimilarity (hash1 hash2 : Str) (length1 length2 : Nat) : Rat :=
  if hash1 = hash2 then 1
  else if ((min length1 length2 : Nat) : Rat) / ((max length1 length2 : Nat) : Rat) < 4 / 5 then 0
  else 0

/-- Whether a candidate fingerprint matches a stored one by either live
rule: similarity at least the 0.95 threshold (i.e. identical content
hash), or identical title hash with byte-length difference under 100. -/
def fpMatches (fp efp : PageFingerprint) : Prop :=
  19 / 20 ≤ calculateSimilarity fp.contentHash efp.contentHash fp.length efp.length ∨
  (fp.titleHash = efp.titleHash ∧ ((fp.length : Int) - (efp.length : Int)).natAbs < 100)

instance (fp efp : PageFingerprint) : Decidable (fpMatches fp efp) := by
  unfold fpMatches
  infer_instance

/-- Comparison loop of `DeduplicationService.isDuplicate` over the stored
fingerprints in insertion order, skipping the entry stored under the
candidate's own URL. -/
def isDuplicateGo (fp : PageFingerprint) (url : Str) :
    List (Str × PageFingerprint) → Bool
  | [] => false
  | (existingUrl, efp) :: rest =>
    if existingUrl = url then isDuplicateGo fp url rest
    else if 19 / 20 ≤ calculateSimilarity fp.contentHash efp.contentHash fp.length efp.length then
      true
    else if fp.titleHash = efp.titleHash ∧ ((fp.length : Int) - (efp.length : Int)).natAbs < 100 then
      true
    else isDuplicateGo fp url rest

/-- JS `Map.set`: overwrite in place when the key exists (keeping its
insertion-order position), append otherwise. -/
def assocSet (url : Str) (fp : PageFingerprint) :
    List (Str × PageFingerprint) → List (Str × PageFingerprint)
  | [] => [(url, fp)]
  | (k, v) :: rest => if k = url then (k, fp) :: rest else (k, v) :: assocSet url fp rest

/-- State of one `DeduplicationService` instance. -/
structure DedupState where
  fingerprints : List (Str × PageFingerprint)
  duplicateCount : Nat
  deriving DecidableEq

/-- A fresh `DeduplicationService` (also the result of `reset()`). -/
def emptyDedup : DedupState :=
  { fingerprints := [], duplicateCount := 0 }

/-- `DeduplicationService.isDuplicate` at the default threshold 0.95:
returns whether a duplicate was detected together with the updated state
(duplicate counter incremented on a hit, fingerprint stored on a miss). -/
def isDuplicate (st : DedupState) (url title content : Str) : Bool × DedupState :=
  if isDuplicateGo (createFingerprint url title content) url st.fingerprints then
    (true, { st with duplicateCount := st.duplicateCount + 1 })
  else
    (false,
      { st with fingerprints := assocSet url (createFingerprint url title content) st.fingerprints })

lemma isDuplicateGo_of_mem (fp : PageFingerprint) (url : Str) :
    ∀ m : List (Str × PageFingerprint),
      (∃ e ∈ m, e.1 ≠ url ∧ fpMatches fp e.2) → isDuplicateGo fp url m = true := by
  intro m
  induction m with
  | nil => rintro ⟨e, he, _⟩; simp at he
  | cons hd rest ih =>
    rintro ⟨e, he, hne, hmat⟩
    obtain ⟨k, v⟩ := hd
    rw [isDuplicateGo]
    rcases List.mem_cons.1 he with heq | he
    · have hne2 : k ≠ url := by rw [heq] at hne; exact hne
      have hmat2 : fpMatches fp v := by rw [heq] at hmat; exact hmat
      rw [if_neg hne2]
      rcases hmat2 with hsim | htitle
      · rw [if_pos hsim]
      · by_cases hsim2 : 19 / 20 ≤
            calculateSimilarity fp.contentHash v.contentHash fp.length v.length
        · rw [if_pos hsim2]
        · rw [if_neg hsim2, if_pos htitle]
    · have hrec := ih ⟨e, he, hne, hmat⟩
      split_ifs <;> simp [hrec]

lemma isDuplicateGo_of_none (fp : PageFingerprint) (url : Str) :
    ∀ m : List (Str × PageFingerprint),
      (∀ e ∈ m, e.1 ≠ url → ¬fpMatches fp e.2) → isDuplicateGo fp url m = false := by
  intro m
  induction m with
  | nil => intro _; rfl
  | cons hd rest ih =>
    intro hno
    obtain ⟨k, v⟩ := hd
    rw [isDuplicateGo]
    by_cases hk : k = url
    · rw [if_pos hk]
      exact ih (fun e he hne => hno e (List.mem_cons_of_mem _ he) hne)
    · rw [if_neg hk]
      have hnm := hno (k, v) (List.mem_cons_self _ _) hk
      rw [fpMatches, not_or] at hnm
      rw [if_neg hnm.1, if_neg hnm.2]
      exact ih (fun e he hne => hno e (List.mem_cons_of_mem _ he) hne)

/-- Claim C6.  (1) When a fingerprint previously stored for a different
URL `urlA ≠ urlB` was created from exactly the same `(title, content)`,
`isDuplicate(urlB, title, content)` returns true: the content hashes are
equal, so similarity is 1 ≥ 0.95.  (2) Re-submitting the same
`(url, title, content)` stored under the same URL returns false — the
self entry is skipped — provided no other stored fingerprint matches. -/
theorem isDuplicate_exact_match (st : DedupState) (urlA urlB title content : Str) :
    ((urlA, createFingerprint urlA title content) ∈ st.fingerprints → urlA ≠ urlB →
      (isDuplicate st urlB title content).1 = true) ∧
    ((urlB, createFingerprint urlB title content) ∈ st.fingerprints →
      (∀ e ∈ st.fingerprints, e.1 ≠ urlB →
        ¬fpMatches (createFingerprint urlB title content) e.2) →
      (isDuplicate st urlB title content).1 = false) := by
  constructor
  · intro hmem hne
    unfold isDuplicate
    have hsim : (19 : Rat) / 20 ≤ calculateSimilarity
        (createFingerprint urlB title content).contentHash
        (createFingerprint urlA title content).contentHash
        (createFingerprint urlB title content).length
        (createFingerprint urlA title content).length := by
      norm_num [createFingerprint, calculateSimilarity]
    rw [isDuplicateGo_of_mem _ _ _
      ⟨(urlA, createFingerprint urlA title content), hmem, hne, Or.inl hsim⟩]
    simp
  · intro _ hno
    unfold isDuplicate
    rw [isDuplicateGo_of_none _ _ _ hno]
    simp

/-- Witness for C6: a store holding a fingerprint for
`https://a.com/x` built from `("T", "Hello world.")` flags the same
`(title, content)` arriving under `https://a.com/y` as duplicate, and a
store holding only `https://a.com/y`'s own fingerprint does not flag its
resubmission. -/
theorem isDuplicate_exact_match_witness :
    (isDuplicate
        { fingerprints := [(strL "https://a.com/x",
            createFingerprint (strL "https://a.com/x") (strL "T") (strL "Hello world."))],
          duplicateCount := 0 }
        (strL "https://a.com/y") (strL "T") (strL "Hello world.")).1 = true ∧
    (isDuplicate
        { fingerprints := [(strL "https://a.com/y",
            createFingerprint (strL "https://a.com/y") (strL "T") (strL "Hello world."))],
          duplicateCount := 0 }
        (strL "https://a.com/y") (strL "T") (strL "Hello world.")).1 = false :=
  And.intro
    ((isDuplicate_exact_match
        { fingerprints := [(strL "https://a.com/x",
            createFingerprint (strL "https://a.com/x") (strL "T") (strL "Hello world."))],
          duplicateCount := 0 }
        (strL "https://a.com/x") (strL "https://a.com/y") (strL "T")
        (strL "Hello world.")).1 (by decide) (by decide))
    ((isDuplicate_exact_match
        { fingerprints := [(strL "https://a.com/y",
            createFingerprint (strL "https://a.com/y") (strL "T") (strL "Hello world."))],
          duplicateCount := 0 }
        (strL "https://a.com/x") (strL "https://a.com/y") (strL "T")
        (strL "Hello world.")).2 (by decide) (by decide))

/-! Configuration validation (lib/config.ts and lib/utils/validation.ts). -/

/-- Leading decimal digits value, `none` when there is no digit. -/
def digitsVal (s : Str) : Option Nat :=
  if s.takeWhile (fun c => 48 ≤ c.toNat ∧ c.toNat ≤ 57) = [] then none
  else some ((s.takeWhile (fun c => 48 ≤ c.toNat ∧ c.toNat ≤ 57)).foldl
    (fun acc c => acc * 10 + (c.toNat - 48)) 0)

/-- JS `parseInt` in base 10: skip leading whitespace, optional sign,
then the maximal run of digits; `none` models `NaN`. -/
def parseIntJS (s : Str) : Option Int :=
  match s.dropWhile isWS with
  | '-' :: rest => (digitsVal rest).map (fun n => -(n : Int))
  | '+' :: rest => (digitsVal rest).map (fun n => (n : Int))
  | t => (digitsVal t).map (fun n => (n : Int))

/-- The raw environment consumed by `validateEnv` (undefined = `none`). -/
structure Env where
  opnaiKey : Option Str
  supabaseUrl : Option Str
  supabaseAnonKey : Option Str
  logLevel : Option Str
  maxRequestsPerMinute : Option Str
  requestWindowMs : Option Str
  maxPagesToScrape : Option Str
  minQualityScore : Option Str
  chunkSize : Option Str
  chunkOverlap : Option Str

/-- Environment after the zod schema: required keys present, optional
keys defaulted.  All ingestion numbers are still strings here. -/
structure ValidatedEnv where
  opnaiKey : Str
  supabaseUrl : Str
  supabaseAnonKey : Str
  logLevel : Str
  maxRequestsPerMinute : Str
  requestWindowMs : Str
  maxPagesToScrape : Str
  minQualityScore : Str
  chunkSize : Str
  chunkOverlap : Str

/-- `validateEnv` of lib/config.ts: the zod `envSchema.parse` call.  The
schema requires a non-empty OpenAI key, a well-formed Supabase URL and a
non-empty anon key, restricts `LOG_LEVEL` to its enum (defaulting to
"development"), and defaults the numeric settings — which it keeps as
arbitrary strings: no numeric relation such as
`chunkOverlap < chunkSize` or `maxPages ≤ 100` is checked here.
`none` models the thrown `Environment validation failed` error. -/
def validateEnv (env : Env) : Option ValidatedEnv :=
  match env.opnaiKey, env.supabaseUrl, env.supabaseAnonKey with
  | some k, some u, some a =>
    if 1 ≤ k.length ∧ (parseHttpUrl u).isSome = true ∧ 1 ≤ a.length then
      if env.logLevel.getD (strL "development") = strL "debug" ∨
          env.logLevel.getD (strL "development") = strL "development" ∨
          env.logLevel.getD (strL "development") = strL "production" then
        some { opnaiKey := k
               supabaseUrl := u
               supabaseAnonKey := a
               logLevel := env.logLevel.getD (strL "development")
               maxRequestsPerMinute := env.maxRequestsPerMinute.getD (strL "50")
               requestWindowMs := env.requestWindowMs.getD (strL "60000")
               maxPagesToScrape := env.maxPagesToScrape.getD (strL "50")
               minQualityScore := env.minQualityScore.getD (strL "20")
               chunkSize := env.chunkSize.getD (strL "1000")
               chunkOverlap := env.chunkOverlap.getD (strL "200") }
      else none
    else none
  | _, _, _ => none

/-- JS `s || fallback` for strings: the empty string is falsy. -/
def jsOr (s fallback : Str) : Str :=
  if s = [] then fallback else s

/-- The `config.ingestion` block built from the validated environment;
each `parseInt` result is an `Option Int` (`none` = `NaN`), and no range
or consistency check is applied. -/
structure IngestionConfig where
  maxPages : Option Int
  maxContentLength : Int
  chunkSize : Option Int
  chunkOverlap : Option Int
  maxConcurrentRequests : Int
  minQualityScore : Option Int
  deriving DecidableEq

/-- `config.ingestion` of lib/config.ts. -/
def mkIngestionConfig (v : ValidatedEnv) : IngestionConfig :=
  { maxPages := parseIntJS (jsOr v.maxPagesToScrape (strL "50"))
    maxContentLength := 8000
    chunkSize := parseIntJS (jsOr v.chunkSize (strL "1000"))
    chunkOverlap := parseIntJS (jsOr v.chunkOverlap (strL "200"))
    maxConcurrentRequests := 5
    minQualityScore := parseIntJS (jsOr v.minQualityScore (strL "20")) }

/-- `validateMaxPages` of lib/utils/validation.ts.  `maxPages = none`
models `undefined`/`null` and falls back to
`parseInt(process.env.MAX_PAGES_TO_SCRAPE || "50")` — with no range
check on that path; an explicit value is parsed and rejected when `NaN`,
below 1 or above 100.  `Except.error` models a thrown
`ValidationError`. -/
def validateMaxPages : Option Str → Option Str → Except Str (Option Int)
  | none, envMax => Except.ok (parseIntJS (jsOr (envMax.getD []) (strL "50")))
  | some s, _ =>
    match parseIntJS s with
    | none => Except.error (strL "maxPages must be a positive number")
    | some n =>
      if n < 1 then Except.error (strL "maxPages must be a positive number")
      else if 100 < n then Except.error (strL "maxPages cannot exceed 100")
      else Except.ok (some n)

/-- Claim C7 (amended).  An explicitly supplied `maxPages` above 100 is
rejected by `validateMaxPages` with a validation error before any crawl
runs.  That is the only live part of the claim: startup validation
(`envSchema`/`validateEnv`) checks only presence and URL shape, so a
configuration with `chunkOverlap ≥ chunkSize` is accepted without any
error, and an env-provided `maxPages > 100` flows through the default
branch of `validateMaxPages` unchecked (see the counterexample). -/
theorem validateMaxPages_rejects_over_100 (s : Str) (n : Int) (envMax : Option Str)
    (hp : parseIntJS s = some n) (h : 100 < n) :
    validateMaxPages (some s) envMax = Except.error (strL "maxPages cannot exceed 100") := by
  rw [validateMaxPages, hp]
  show (if n < 1 then Except.error (strL "maxPages must be a positive number")
    else if 100 < n then Except.error (strL "maxPages cannot exceed 100")
    else Except.ok (some n)) = Except.error (strL "maxPages cannot exceed 100")
  rw [if_neg (by omega), if_pos h]

/-- Witness for C7 at the concrete request value "101". -/
theorem validateMaxPages_rejects_over_100_witness :
    validateMaxPages (some (strL "101")) none =
      Except.error (strL "maxPages cannot exceed 100") :=
  validateMaxPages_rejects_over_100 (strL "101") 101 none (by decide) (by decide)

/-- Counterexample for C7 as stated.  A configuration with
`CHUNK_SIZE=100, CHUNK_OVERLAP=200` (so `chunkOverlap ≥ chunkSize`)
passes `validateEnv` and lands in `config.ingestion` with no validation
error, and an environment-provided `MAX_PAGES_TO_SCRAPE=500` (greater
than 100) is returned unchecked by `validateMaxPages` when the request
does not supply `maxPages`. -/
theorem config_accepts_invalid_values_cex :
    ((validateEnv
        { opnaiKey := some (strL "k")
          supabaseUrl := some (strL "https://x.supabase.co")
          supabaseAnonKey := some (strL "a")
          logLevel := none
          maxRequestsPerMinute := none
          requestWindowMs := none
          maxPagesToScrape := none
          minQualityScore := none
          chunkSize := some (strL "100")
          chunkOverlap := some (strL "200") }).map
      (fun v => ((mkIngestionConfig v).chunkSize, (mkIngestionConfig v).chunkOverlap))) =
      some (some 100, some 200) ∧
    validateMaxPages none (some (strL "500")) = Except.ok (some 500) := by
  constructor
  · rfl
  · rfl

/-! Ingestion pipelines (app/api/ingest/route.ts and the
analyze-website job task).  Scraping, embedding and persistence are
external collaborators here: the pages list is the scrape result, and
`storeOk url` tells whether the `storeEmbeddings` call for that page
succeeds (its failure is caught per page).  The trace of pages for which
`storeEmbeddings` is invoked is recorded explicitly. -/

/-- A scraped page as consumed by the ingestion loops. -/
structure PageIn where
  url : Str
  title : Str
  content : Str

/-- One iteration of the /api/ingest POST loop: skip pages with fewer
than 100 content characters before any processing; otherwise call
`storeEmbeddings` (recorded in the trace) and count the page as
processed when the call succeeds. -/
def routeStep (storeOk : Str → Bool) (acc : List Str × Nat) (p : PageIn) : List Str × Nat :=
  if p.content.length < 100 then acc
  else (acc.1 ++ [p.url], if storeOk p.url = true then acc.2 + 1 else acc.2)

/-- The /api/ingest POST pipeline after scraping: the
`deleteWebsiteEmbeddings` call is wrapped in try/catch and its failure
only logged — `deleteOk` is deliberately not consulted, mirroring lines
80–84 of the route — then every page runs through `routeStep`.  Returns
the `storeEmbeddings` call trace and `processedPages`. -/
def ingestRouteAfterScrape (deleteOk : Bool) (storeOk : Str → Bool)
    (pages : List PageIn) : List Str × Nat :=
  pages.foldl (routeStep storeOk) ([], 0)

/-- State of the analyze-website task loop. -/
structure TaskState where
  dedup : DedupState
  calls : List Str
  processed : Nat
  skippedDuplicates : Nat
  errorsCount : Nat
  deriving DecidableEq

/-- Fresh state at the start of the embedding phase. -/
def initialTaskState : TaskState :=
  { dedup := emptyDedup, calls := [], processed := 0, skippedDuplicates := 0, errorsCount := 0 }

/-- One iteration of the analyzeWebsiteTask page loop: skip short pages
(fewer than 100 characters) before any processing, then the duplicate
check (which mutates the fingerprint store), then `storeEmbeddings` with
its per-page catch. -/
def taskStep (storeOk : Str → Bool) (s : TaskState) (p : PageIn) : TaskState :=
  if p.content.length < 100 then s
  else
    match isDuplicate s.dedup p.url p.title p.content with
    | (true, d2) => { s with dedup := d2, skippedDuplicates := s.skippedDuplicates + 1 }
    | (false, d2) =>
      if storeOk p.url = true then
        { s with dedup := d2, calls := s.calls ++ [p.url], processed := s.processed + 1 }
      else
        { s with dedup := d2, calls := s.calls ++ [p.url], errorsCount := s.errorsCount + 1 }

/-- The page loop of analyzeWebsiteTask. -/
def taskLoop (storeOk : Str → Bool) (s : TaskState) (pages : List PageIn) : TaskState :=
  pages.foldl (taskStep storeOk) s

/-- analyzeWebsiteTask.run after scraping: `deleteWebsiteEmbeddings` is
not guarded, so its failure propagates to the task's catch and is
rethrown before the page loop runs; on success the loop processes every
page.  The first component is the `storeEmbeddings` call trace. -/
def analyzeTaskRun (deleteOk : Bool) (storeOk : Str → Bool)
    (pages : List PageIn) : List Str × Except Str TaskState :=
  if deleteOk then
    ((taskLoop storeOk initialTaskState pages).calls,
      Except.ok (taskLoop storeOk initialTaskState pages))
  else
    ([], Except.error (strL "Failed to delete embeddings"))

/-- Claim C8 (amended).  In analyzeWebsiteTask, a failure of the
delete-before-insert `deleteWebsiteEmbeddings` call aborts the
re-ingestion: the task fails and no `storeEmbeddings` call is made.  The
/api/ingest route, by contrast, catches and merely logs the delete
failure and proceeds to store embeddings (see the counterexample). -/
theorem deleteFailure_aborts_task (storeOk : Str → Bool) (pages : List PageIn) :
    (analyzeTaskRun false storeOk pages).1 = [] ∧
    (analyzeTaskRun false storeOk pages).2 =
      Except.error (strL "Failed to delete embeddings") := by
  constructor <;> rfl

set_option maxRecDepth 4000

/-- Counterexample for C8 as stated.  In the /api/ingest route the
failed delete is swallowed by its try/catch: with the delete failing and
one 120-character page, `storeEmbeddings` is still called for that page
and the page is counted as processed — the re-ingestion is not
aborted. -/
theorem ingestRoute_stores_after_delete_failure_cex :
    (ingestRouteAfterScrape false (fun _ => true)
        [{ url := strL "https://a.com/p", title := strL "T",
           content := List.replicate 120 'x' }]).1 = [strL "https://a.com/p"] ∧
    (ingestRouteAfterScrape false (fun _ => true)
        [{ url := strL "https://a.com/p", title := strL "T",
           content := List.replicate 120 'x' }]).2 = 1 := by
  constructor
  · decide
  · decide

/-- Claim C10.  A page with fewer than 100 content characters is
invisible to the ingestion loops: removing it from the page list changes
nothing — no duplicate check runs for it (the fingerprint store is
unchanged), no `storeEmbeddings` call is recorded, and `pagesProcessed`
is not incremented, in both the job task loop and the /api/ingest route
loop. -/
theorem short_page_silently_skipped (storeOk : Str → Bool) (s : TaskState)
    (acc : List Str × Nat) (pre post : List PageIn) (p : PageIn)
    (h : p.content.length < 100) :
    taskLoop storeOk s (pre ++ p :: post) = taskLoop storeOk s (pre ++ post) ∧
    (pre ++ p :: post).foldl (routeStep storeOk) acc =
      (pre ++ post).foldl (routeStep storeOk) acc := by
  have htask : taskStep storeOk (taskLoop storeOk s pre) p = taskLoop storeOk s pre := by
    unfold taskStep
    rw [if_pos h]
  have hroute : routeStep storeOk (pre.foldl (routeStep storeOk) acc) p =
      pre.foldl (routeStep storeOk) acc := by
    unfold routeStep
    rw [if_pos h]
  constructor
  · unfold taskLoop
    rw [List.foldl_append, List.foldl_append, List.foldl_cons]
    unfold taskLoop at htask
    rw [htask]
  · rw [List.foldl_append, List.foldl_append, List.foldl_cons, hroute]

/-- Witness for C10: a 5-character page between two long pages leaves
both loops' results identical to the run without it. -/
theorem short_page_silently_skipped_witness :
    taskLoop (fun _ => true) initialTaskState
        [{ url := strL "https://a.com/1", title := strL "T1",
           content := List.replicate 120 'x' },
         { url := strL "https://a.com/s", title := strL "S",
           content := strL "tiny." },
         { url := strL "https://a.com/2", title := strL "T2",
           content := List.replicate 150 'y' }] =
      taskLoop (fun _ => true) initialTaskState
        [{ url := strL "https://a.com/1", title := strL "T1",
           content := List.replicate 120 'x' },
         { url := strL "https://a.com/2", title := strL "T2",
           content := List.replicate 150 'y' }] ∧
    ([{ url := strL "https://a.com/1", title := strL "T1",
        content := List.replicate 120 'x' },
      { url := strL "https://a.com/s", title := strL "S",
        content := strL "tiny." },
      { url := strL "https://a.com/2", title := strL "T2",
        content := List.replicate 150 'y' }] : List PageIn).foldl
        (routeStep (fun _ => true)) ([], 0) =
      ([{ url := strL "https://a.com/1", title := strL "T1",
          content := List.replicate 120 'x' },
        { url := strL "https://a.com/2", title := strL "T2",
          content := List.replicate 150 'y' }] : List PageIn).foldl
        (routeStep (fun _ => true)) ([], 0) :=
  short_page_silently_skipped (fun _ => true) initialTaskState ([], 0)
    [{ url := strL "https://a.com/1", title := strL "T1",
       content := List.replicate 120 'x' }]
    [{ url := strL "https://a.com/2", title := strL "T2",
       content := List.replicate 150 'y' }]
    { url := strL "https://a.com/s", title := strL "S", content := strL "tiny." }
    (by decide)

end Spec2Proof
